import Mathlib

/-!
Verification of the rescript-lang.org documentation-site repository against
its natural-language specification.

Part 1 embeds the presentational image component
(`src/components/Image.mjs`, function `Image$default`) as a pure function
from props to a markup tree.

Part 2 models the static documentation pipeline the specification
describes (front-matter parser, content transformer, page assembler);
that code is not part of the shipped sources, so those definitions are
modelled from the specification text and marked as such.
-/

/-! ## Part 1: the image component -/

mutual

/-- A markup tree: the shape of values produced by `React.createElement`
in the generated component code.  An element carries a tag name, a list
of (attribute, value) pairs and its children; `text` is a string child;
`null` is the JavaScript `null` child used when the caption is absent. -/
inductive Markup where
  | element (tag : String) (attrs : List (String × String)) (children : MarkupList)
  | text (s : String)
  | null

/-- A list of markup children, mutual with `Markup` so that recursion
over trees is structural. -/
inductive MarkupList where
  | nil
  | cons (m : Markup) (ms : MarkupList)

end

/-- The props object of `Image$default`: `src` is required, `withShadow`
and `caption` may be `undefined` (modelled as `none`). -/
structure ImageProps where
  src : String
  withShadow : Option Bool
  caption : Option String

namespace Image

/-- Embedding of `Image$default` from `src/components/Image.mjs`, line by
line: `withShadow` defaults to `false` when the prop is `undefined`; the
shadow class is `"shadow-md"` when `withShadow` holds and `""` otherwise;
the output is a `div` containing an anchor around the `img`, followed by
either a caption `div` or `null`. -/
def default (Props : ImageProps) : Markup :=
  let src := Props.src
  let withShadowOpt := Props.withShadow
  let caption := Props.caption
  let withShadow := match withShadowOpt with
    | some b => b
    | none => false
  let shadow := if withShadow then "shadow-md" else ""
  .element "div" [("className", "mt-8 mb-12 md:-mx-16")]
    (.cons
      (.element "a" [("href", src), ("rel", "noopener noreferrer"), ("target", "_blank")]
        (.cons (.element "img" [("className", "w-full " ++ shadow), ("src", src)] .nil)
          .nil))
      (.cons
        (match caption with
          | some c =>
              .element "div" [("className", "mt-4 text-14 text-gray-60 md:ml-16")]
                (.cons (.text c) .nil)
          | none => .null)
        .nil))

end Image

/-- Split a character list on spaces. -/
def splitOnSpace : List Char → List (List Char)
  | [] => [[]]
  | c :: rest =>
      let r := splitOnSpace rest
      if c = ' ' then [] :: r
      else match r with
        | w :: ws => (c :: w) :: ws
        | [] => [[c]]

/-- The class tokens of a `className` attribute value: the space-separated
non-empty words. -/
def classTokens (s : String) : List String :=
  ((splitOnSpace s.toList).map (fun w => String.mk w)).filter (fun t => t ≠ "")

/-- Whether an attribute list carries a `className` one of whose class
tokens is `tok`. -/
def attrsHaveClassToken (attrs : List (String × String)) (tok : String) : Bool :=
  attrs.any (fun kv => kv.1 = "className" && (classTokens kv.2).contains tok)

mutual

/-- Whether any element in the markup tree carries the class token `tok`
in its `className`. -/
def Markup.hasClassToken (tok : String) : Markup → Bool
  | .element _ attrs children =>
      attrsHaveClassToken attrs tok || MarkupList.hasClassToken tok children
  | .text _ => false
  | .null => false

/-- `Markup.hasClassToken` over a list of children. -/
def MarkupList.hasClassToken (tok : String) : MarkupList → Bool
  | .nil => false
  | .cons m ms => Markup.hasClassToken tok m || MarkupList.hasClassToken tok ms

end

/-- The `className` value of the caption element in `Image$default`
(line 21 of `src/components/Image.mjs`). -/
def captionClassName : String := "mt-4 text-14 text-gray-60 md:ml-16"

/-- Whether an attribute list is the caption element's attribute list:
a `className` equal to `captionClassName`. -/
def attrsAreCaption (attrs : List (String × String)) : Bool :=
  attrs.any (fun kv => kv.1 = "className" && kv.2 = captionClassName)

/-- The concatenation of the direct text children of a child list. -/
def MarkupList.directText : MarkupList → String
  | .nil => ""
  | .cons (.text s) ms => s ++ MarkupList.directText ms
  | .cons _ ms => MarkupList.directText ms

mutual

/-- The contents of every caption element in a markup tree: for each
`div` bearing the caption class, the concatenation of its direct text
children.  An empty result means the tree holds no caption element. -/
def Markup.captionTexts : Markup → List String
  | .element tag attrs children =>
      (if tag = "div" && attrsAreCaption attrs then [children.directText] else [])
        ++ MarkupList.captionTexts children
  | .text _ => []
  | .null => []

/-- `Markup.captionTexts` over a list of children. -/
def MarkupList.captionTexts : MarkupList → List String
  | .nil => []
  | .cons m ms => Markup.captionTexts m ++ MarkupList.captionTexts ms

end

/-- C1: with any `src`, no caption and `withShadow := false`, the image
component's markup carries no `shadow-md` class token and no caption
element; with a caption string added, the markup additionally carries a
caption element whose content is exactly that string (and still no
shadow class). -/
theorem image_render_shadow_and_caption (src : String) :
    (Image.default ⟨src, some false, none⟩).hasClassToken "shadow-md" = false
    ∧ (Image.default ⟨src, some false, none⟩).captionTexts = []
    ∧ ∀ cap : String,
        (Image.default ⟨src, some false, some cap⟩).hasClassToken "shadow-md" = false
        ∧ (Image.default ⟨src, some false, some cap⟩).captionTexts = [cap] := by
  refine ⟨?_, ?_, fun cap => ⟨?_, ?_⟩⟩ <;>
    simp [Image.default, Markup.hasClassToken, MarkupList.hasClassToken,
      Markup.captionTexts, MarkupList.captionTexts, MarkupList.directText,
      attrsHaveClassToken, attrsAreCaption, captionClassName, classTokens, splitOnSpace]

/-- C2: omitting the `withShadow` prop (undefined) renders exactly as
passing `withShadow := false`, for every `src` and `caption`; in
particular the class list carries no shadow class. -/
theorem image_withShadow_default (src : String) (caption : Option String) :
    Image.default ⟨src, none, caption⟩ = Image.default ⟨src, some false, caption⟩
    ∧ (Image.default ⟨src, none, caption⟩).hasClassToken "shadow-md" = false := by
  refine ⟨rfl, ?_⟩
  cases caption <;>
    simp [Image.default, Markup.hasClassToken, MarkupList.hasClassToken,
      attrsHaveClassToken, classTokens, splitOnSpace]

/-- C3: the image component is deterministic: two invocations whose
props agree field by field produce equal markup trees (the embedding is
a pure function, so no external state is read or written). -/
theorem image_deterministic (p q : ImageProps)
    (hsrc : p.src = q.src) (hsh : p.withShadow = q.withShadow)
    (hcap : p.caption = q.caption) :
    Image.default p = Image.default q := by
  cases p
  cases q
  cases hsrc
  cases hsh
  cases hcap
  rfl

/-- Witness for C3 at concrete props. -/
theorem image_deterministic_witness :
    Image.default ⟨"a.png", some true, some "cap"⟩
      = Image.default ⟨"a.png", some true, some "cap"⟩ :=
  image_deterministic ⟨"a.png", some true, some "cap"⟩ ⟨"a.png", some true, some "cap"⟩
    rfl rfl rfl

/-- C4: for every input, the rendered markup wraps the `img` element in
an anchor whose `href` is the given `src`, whose `target` is `_blank`
and whose `rel` is `noopener noreferrer`. -/
theorem image_anchor_wraps_img (p : ImageProps) :
    ∃ capPart : Markup, Image.default p =
      .element "div" [("className", "mt-8 mb-12 md:-mx-16")]
        (.cons
          (.element "a"
            [("href", p.src), ("rel", "noopener noreferrer"), ("target", "_blank")]
            (.cons
              (.element "img"
                [("className",
                    "w-full " ++ (if p.withShadow.getD false then "shadow-md" else "")),
                  ("src", p.src)]
                .nil)
              .nil))
          (.cons capPart .nil)) := by
  cases p with
  | mk src ws cap => cases ws <;> exact ⟨_, rfl⟩

/-! ## Part 2: the documentation pipeline, modelled from the spec

The front-matter parser, content transformer and page assembler described
in the specification are not part of the shipped sources (the repository
holds the documentation content they process, e.g.
`src/pages/docs/manual/v9.0.0/polymorphic-variant.mdx`); the definitions
below are therefore modelled from the specification text. -/

/-- Modelled from the spec: the error raised by the front-matter parser
when the delimiter markers are unbalanced. -/
inductive FMError where
  | malformedFrontMatter
deriving DecidableEq

/-- Break a character list at the first colon: `some (before, after)`
when a colon occurs, `none` otherwise. -/
def breakOnColon : List Char → Option (List Char × List Char)
  | [] => none
  | c :: cs =>
      if c = ':' then some ([], cs)
      else (breakOnColon cs).map (fun p => (c :: p.1, p.2))

/-- Drop one leading space from a character list, if present. -/
def dropOneSpace : List Char → List Char
  | ' ' :: cs => cs
  | cs => cs

/-- Modelled from the spec: one front-matter metadata line `key: value`
parsed into its key/value pair.  The key is everything before the first
colon; the value is the remainder with the single separating space
removed.  A line with no colon yields the whole line as key and an empty
value. -/
def parseKVLine (l : String) : String × String :=
  match breakOnColon l.toList with
  | some p => (String.mk p.1, String.mk (dropOneSpace p.2))
  | none => (l, "")

/-- Modelled from the spec: serialize one key/value pair back to a
front-matter metadata line. -/
def serializeKVLine (kv : String × String) : String :=
  kv.1 ++ ": " ++ kv.2

/-- A valid front-matter metadata line: it has a colon followed
immediately by a space. -/
def validKVLine (l : String) : Bool :=
  match breakOnColon l.toList with
  | some p =>
      match p.2 with
      | c :: _ => c = ' '
      | [] => false
  | none => false

/-- Scan for the closing `---` delimiter, parsing each metadata line on
the way; `none` when no closing delimiter exists. -/
def scanFrontMatter : List String → Option (List (String × String) × List String)
  | [] => none
  | l :: rest =>
      if l = "---" then some ([], rest)
      else (scanFrontMatter rest).map (fun p => (parseKVLine l :: p.1, p.2))

/-- Modelled from the spec: the front-matter parser.  Given the raw file
text (as lines), it returns the metadata key/value pairs and the
remaining body text, or fails with `MalformedFrontMatter` exactly when an
opening `---` delimiter has no matching closing delimiter.  A file not
starting with the delimiter has no front matter. -/
def parseFrontMatter (lines : List String) :
    Except FMError (List (String × String) × List String) :=
  match lines with
  | [] => .ok ([], [])
  | l :: rest =>
      if l = "---" then
        match scanFrontMatter rest with
        | some p => .ok p
        | none => .error .malformedFrontMatter
      else .ok ([], lines)

/-- Unbalanced front matter: the file opens with the delimiter and no
closing delimiter follows. -/
def fmUnbalanced (lines : List String) : Bool :=
  match lines with
  | [] => false
  | l :: rest => l = "---" && !(rest.contains "---")

/-- A document after front-matter parsing: its metadata and body. -/
structure ParsedDoc where
  meta : List (String × String)
  body : List String
deriving DecidableEq

/-- Modelled from the spec: the build over a list of files, front-matter
stage.  A file whose front matter is malformed is skipped (its index is
recorded) and the build continues with the remaining files. -/
def buildDocsGo (i : Nat) : List (List String) → List ParsedDoc × List Nat
  | [] => ([], [])
  | f :: fs =>
      match parseFrontMatter f with
      | .ok p =>
          let r := buildDocsGo (i + 1) fs
          (⟨p.1, p.2⟩ :: r.1, r.2)
      | .error _ =>
          let r := buildDocsGo (i + 1) fs
          (r.1, i :: r.2)

/-- The front-matter stage over a whole file set. -/
def buildDocs (files : List (List String)) : List ParsedDoc × List Nat :=
  buildDocsGo 0 files

theorem breakOnColon_eq (cs : List Char) :
    ∀ a b, breakOnColon cs = some (a, b) → cs = a ++ ':' :: b := by
  induction cs with
  | nil => intro a b h; simp [breakOnColon] at h
  | cons c cs ih =>
      intro a b h
      by_cases hc : c = ':'
      · subst hc
        simp [breakOnColon] at h
        obtain ⟨ha, hb⟩ := h
        subst ha
        subst hb
        rfl
      · simp [breakOnColon, hc] at h
        obtain ⟨p, hp, hpa⟩ := h
        subst hpa
        simp [ih _ _ hp]

theorem string_mk_append (a b : List Char) :
    String.mk a ++ String.mk b = String.mk (a ++ b) := rfl

theorem serializeKVLine_parseKVLine (l : String) (h : validKVLine l = true) :
    serializeKVLine (parseKVLine l) = l := by
  unfold validKVLine at h
  cases hb : breakOnColon l.toList with
  | none => rw [hb] at h; simp at h
  | some p =>
      rw [hb] at h
      obtain ⟨k, rest⟩ := p
      cases rest with
      | nil => simp at h
      | cons c v =>
          simp at h
          subst h
          have hl : l.toList = k ++ ':' :: ' ' :: v := breakOnColon_eq _ _ _ hb
          have hdrop : dropOneSpace (' ' :: v) = v := rfl
          unfold parseKVLine serializeKVLine
          rw [hb]
          simp only [hdrop]
          have hll : l = String.mk l.toList := by
            cases l; rfl
          rw [hll, hl]
          rw [show (": " : String) = String.mk [':', ' '] from rfl]
          rw [string_mk_append, string_mk_append]
          simp

theorem validKVLine_ne_delim (l : String) (h : validKVLine l = true) : l ≠ "---" := by
  intro heq
  subst heq
  simp [validKVLine, breakOnColon] at h

theorem scanFrontMatter_append (kvLines body : List String)
    (h : ∀ l ∈ kvLines, l ≠ "---") :
    scanFrontMatter (kvLines ++ "---" :: body)
      = some (kvLines.map parseKVLine, body) := by
  induction kvLines with
  | nil => simp [scanFrontMatter]
  | cons l ls ih =>
      have hl : l ≠ "---" := h l (by simp)
      have ihh := ih (fun x hx => h x (by simp [hx]))
      simp [scanFrontMatter, hl, ihh]

theorem map_serialize_parse (kvLines : List String)
    (h : ∀ l ∈ kvLines, validKVLine l = true) :
    (kvLines.map parseKVLine).map serializeKVLine = kvLines := by
  induction kvLines with
  | nil => rfl
  | cons l ls ih =>
      simp only [List.map_cons, List.map_map]
      rw [serializeKVLine_parseKVLine l (h l (by simp))]
      have := ih (fun x hx => h x (by simp [hx]))
      simp only [List.map_map] at this
      rw [this]

/-- C6: parse-then-serialize round-trips a valid front-matter block: the
parser returns exactly the pairs of the metadata lines together with the
body, and serializing those pairs yields back the original metadata
lines. -/
theorem frontMatter_parse_serialize_roundtrip (kvLines body : List String)
    (hvalid : ∀ l ∈ kvLines, validKVLine l = true) :
    parseFrontMatter ("---" :: kvLines ++ "---" :: body)
        = .ok (kvLines.map parseKVLine, body)
    ∧ (kvLines.map parseKVLine).map serializeKVLine = kvLines := by
  constructor
  · have hscan := scanFrontMatter_append kvLines body
      (fun l hl => validKVLine_ne_delim l (hvalid l hl))
    simp [parseFrontMatter, hscan]
  · exact map_serialize_parse kvLines hvalid

/-- Witness for C6 on a concrete front-matter block. -/
theorem frontMatter_parse_serialize_roundtrip_witness :
    (∀ l ∈ ["title: x", "canonical: /docs/y"], validKVLine l = true)
    ∧ (parseFrontMatter ("---" :: ["title: x", "canonical: /docs/y"] ++ "---" :: ["Body"])
          = .ok ((["title: x", "canonical: /docs/y"]).map parseKVLine, ["Body"])
        ∧ ((["title: x", "canonical: /docs/y"]).map parseKVLine).map serializeKVLine
            = ["title: x", "canonical: /docs/y"]) :=
  ⟨by decide,
    frontMatter_parse_serialize_roundtrip ["title: x", "canonical: /docs/y"] ["Body"]
      (by decide)⟩

theorem scanFrontMatter_eq_none_iff (lines : List String) :
    scanFrontMatter lines = none ↔ "---" ∉ lines := by
  induction lines with
  | nil => simp [scanFrontMatter]
  | cons l rest ih =>
      by_cases hl : l = "---"
      · subst hl
        simp [scanFrontMatter]
      · simp [scanFrontMatter, hl, ih, Ne.symm hl]

theorem buildDocsGo_filterMap (files : List (List String)) :
    ∀ i, (buildDocsGo i files).1 = files.filterMap (fun f =>
      match parseFrontMatter f with
      | .ok p => some (ParsedDoc.mk p.1 p.2)
      | .error _ => none) := by
  induction files with
  | nil => intro i; rfl
  | cons f fs ih =>
      intro i
      cases h : parseFrontMatter f with
      | ok p => simp [buildDocsGo, h, List.filterMap_cons, ih (i + 1)]
      | error e => simp [buildDocsGo, h, List.filterMap_cons, ih (i + 1)]

/-- C9: the front-matter parser fails with `MalformedFrontMatter` exactly
when the delimiter markers are unbalanced (an opening delimiter with no
closing one); on any failure the affected document is skipped and the
build continues over all remaining documents, producing exactly the
documents whose front matter parses (the parser and the build stage are
pure functions, so there are no side effects). -/
theorem frontMatter_error_iff_unbalanced_and_build_continues :
    (∀ lines : List String,
        parseFrontMatter lines = .error .malformedFrontMatter
          ↔ fmUnbalanced lines = true)
    ∧ (∀ files : List (List String),
        (buildDocs files).1 = files.filterMap (fun f =>
          match parseFrontMatter f with
          | .ok p => some (ParsedDoc.mk p.1 p.2)
          | .error _ => none)) := by
  constructor
  · intro lines
    cases lines with
    | nil => simp [parseFrontMatter, fmUnbalanced]
    | cons l rest =>
        by_cases hl : l = "---"
        · subst hl
          cases h : scanFrontMatter rest with
          | none =>
              have hmem := (scanFrontMatter_eq_none_iff rest).mp h
              simp [parseFrontMatter, fmUnbalanced, h]
              intro hcon
              exact hmem (by simpa using hcon)
          | some p =>
              have hmem : "---" ∈ rest := by
                by_contra hno
                rw [(scanFrontMatter_eq_none_iff rest).mpr hno] at h
                cases h
              simp [parseFrontMatter, fmUnbalanced, h]
              simpa using hmem
        · simp [parseFrontMatter, fmUnbalanced, hl]
  · intro files
    exact buildDocsGo_filterMap files 0

/-- Modelled from the spec: one structural unit of a parsed document -- a
tagged variant over heading, paragraph, code tab, list, link and raw
markup.  A code tab carries an ordered sequence of (label, language,
code) triples; a link carries the literal target string, unresolved. -/
inductive ContentBlock where
  | heading (level : Nat) (text : String)
  | paragraph (text : String)
  | codeTab (entries : List (String × String × String))
  | listBlock (items : List String)
  | link (target : String)
  | rawMarkup (text : String)
deriving DecidableEq

/-- Modelled from the spec: a parsed document as the page assembler sees
it -- its canonical path and its body of content blocks. -/
structure Document where
  canonical : String
  blocks : List ContentBlock
deriving DecidableEq

/-- Modelled from the spec: the build-time error raised when two
documents share a canonical path. -/
inductive AsmError where
  | duplicateCanonicalPath
deriving DecidableEq

/-- Build the canonical-path table, left to right, failing as soon as a
canonical path repeats. -/
def buildPathTableGo (seen : List String) :
    List Document → Except AsmError (List (String × Document))
  | [] => .ok []
  | d :: ds =>
      if d.canonical ∈ seen then .error .duplicateCanonicalPath
      else (buildPathTableGo (d.canonical :: seen) ds).map
        (fun t => (d.canonical, d) :: t)

/-- Modelled from the spec: the canonical-path table built once per build
from all documents' metadata; raises `DuplicateCanonicalPath` when a
canonical path is not unique across the document set. -/
def buildPathTable (docs : List Document) :
    Except AsmError (List (String × Document)) :=
  buildPathTableGo [] docs

theorem buildPathTableGo_ok (docs : List Document) :
    ∀ seen table, buildPathTableGo seen docs = .ok table →
      table.map Prod.fst = docs.map Document.canonical
      ∧ (∀ x ∈ docs.map Document.canonical, x ∉ seen)
      ∧ (docs.map Document.canonical).Nodup := by
  induction docs with
  | nil =>
      intro seen table h
      simp [buildPathTableGo] at h
      subst h
      simp
  | cons d ds ih =>
      intro seen table h
      by_cases hmem : d.canonical ∈ seen
      · simp [buildPathTableGo, hmem] at h
      · simp only [buildPathTableGo, if_neg hmem] at h
        cases hgo : buildPathTableGo (d.canonical :: seen) ds with
        | error e => rw [hgo] at h; cases h
        | ok t' =>
            rw [hgo] at h
            simp [Except.map] at h
            subst h
            obtain ⟨hmap, hseen, hnodup⟩ := ih (d.canonical :: seen) t' hgo
            refine ⟨by simp [hmap], ?_, ?_⟩
            · intro x hx
              simp at hx
              rcases hx with hx | hx
              · rw [hx]; exact hmem
              · intro hxseen
                exact hseen x (by simp [hx]) (by simp [hxseen])
            · simp only [List.map_cons, List.nodup_cons]
              refine ⟨?_, hnodup⟩
              intro hmemd
              exact hseen d.canonical (by simpa using hmemd) (by simp)

theorem buildPathTableGo_error (docs : List Document) :
    ∀ seen : List String,
      ((∃ d ∈ docs, d.canonical ∈ seen) ∨ ¬ (docs.map Document.canonical).Nodup) →
      buildPathTableGo seen docs = .error .duplicateCanonicalPath := by
  induction docs with
  | nil =>
      intro seen h
      rcases h with ⟨d, hd, _⟩ | h
      · simp at hd
      · simp at h
  | cons d ds ih =>
      intro seen h
      by_cases hmem : d.canonical ∈ seen
      · simp [buildPathTableGo, hmem]
      · have hrec : buildPathTableGo (d.canonical :: seen) ds
            = .error .duplicateCanonicalPath := by
          apply ih
          rcases h with ⟨d', hd', hseen⟩ | h
          · rcases List.mem_cons.mp hd' with heq | hmem'
            · exact absurd (heq ▸ hseen) hmem
            · exact Or.inl ⟨d', hmem', List.mem_cons_of_mem _ hseen⟩
          · simp only [List.map_cons, List.nodup_cons, not_and_or] at h
            rcases h with h | h
            · push_neg at h
              obtain ⟨d', hd', heq⟩ := List.mem_map.mp h
              exact Or.inl ⟨d', hd', by simp [heq]⟩
            · exact Or.inr h
        simp [buildPathTableGo, hmem, hrec, Except.map]

/-- C7: when the page assembler accepts a document set, every canonical
path appears exactly once in the canonical-path table (the table keys
are exactly the documents' canonical paths, with no duplicate); a
document set with two documents sharing a canonical path is rejected
with the build-time `DuplicateCanonicalPath` error. -/
theorem canonical_paths_unique_or_duplicate_error :
    (∀ (docs : List Document) (table : List (String × Document)),
        buildPathTable docs = .ok table →
          table.map Prod.fst = docs.map Document.canonical
          ∧ (table.map Prod.fst).Nodup)
    ∧ (∀ docs : List Document,
        ¬ (docs.map Document.canonical).Nodup →
        buildPathTable docs = .error .duplicateCanonicalPath) := by
  constructor
  · intro docs table h
    obtain ⟨hmap, _, hnodup⟩ := buildPathTableGo_ok docs [] table h
    exact ⟨hmap, hmap ▸ hnodup⟩
  · intro docs h
    exact buildPathTableGo_error docs [] (Or.inr h)

/-- Witness for C7: a two-document set with distinct canonical paths is
accepted with both paths in the table, and a two-document set sharing a
canonical path is rejected with `DuplicateCanonicalPath`. -/
theorem canonical_paths_unique_or_duplicate_error_witness :
    ((List.map Prod.fst [("/x", Document.mk "/x" []), ("/y", Document.mk "/y" [])]
        = List.map Document.canonical [Document.mk "/x" [], Document.mk "/y" []]
      ∧ (List.map Prod.fst
          [("/x", Document.mk "/x" []), ("/y", Document.mk "/y" [])]).Nodup)
    ∧ buildPathTable [Document.mk "/x" [], Document.mk "/x" []]
        = .error .duplicateCanonicalPath) :=
  ⟨canonical_paths_unique_or_duplicate_error.1
      [Document.mk "/x" [], Document.mk "/y" []]
      [("/x", Document.mk "/x" []), ("/y", Document.mk "/y" [])] rfl,
    canonical_paths_unique_or_duplicate_error.2
      [Document.mk "/x" [], Document.mk "/x" []] (by decide)⟩

/-- Modelled from the spec: the diagnostics channel entry for an
unresolvable link. -/
inductive Diagnostic where
  | brokenLink (target : String)
deriving DecidableEq

/-- Modelled from the spec: a rendered unit of a page.  A resolvable link
becomes a hyperlink; an unresolvable one is rendered as plain text; every
other block passes through. -/
inductive Rendered where
  | node (b : ContentBlock)
  | hyperlink (target : String)
  | plainText (s : String)
deriving DecidableEq

/-- Modelled from the spec: resolve one content block against the
canonical-path table (here, its list of paths).  An unresolvable link
yields a `BrokenLink` diagnostic and renders as plain text. -/
def renderBlock (table : List String) (b : ContentBlock) :
    Rendered × List Diagnostic :=
  match b with
  | .link t => if t ∈ table then (.hyperlink t, []) else (.plainText t, [.brokenLink t])
  | b => (.node b, [])

/-- Modelled from the spec: assemble one document body, collecting the
diagnostics of all its blocks (collected, not fatal). -/
def assembleDoc (table : List String) : List ContentBlock → List Rendered × List Diagnostic
  | [] => ([], [])
  | b :: bs =>
      let r := renderBlock table b
      let rest := assembleDoc table bs
      (r.1 :: rest.1, r.2 ++ rest.2)

/-- Modelled from the spec: the page assembler produces one page per
document, never aborting on diagnostics. -/
def assemblePages (table : List String) (docs : List Document) :
    List (List Rendered × List Diagnostic) :=
  docs.map (fun d => assembleDoc table d.blocks)

/-- Whether a content block is a link. -/
def ContentBlock.isLink : ContentBlock → Bool
  | .link _ => true
  | _ => false

theorem renderBlock_not_link (table : List String) (b : ContentBlock)
    (h : b.isLink = false) : renderBlock table b = (.node b, []) := by
  cases b <;> simp_all [ContentBlock.isLink, renderBlock]

theorem assembleDoc_linkFree (table : List String) (bs : List ContentBlock)
    (h : ∀ b ∈ bs, b.isLink = false) :
    assembleDoc table bs = (bs.map Rendered.node, []) := by
  induction bs with
  | nil => rfl
  | cons b bs ih =>
      have hb := renderBlock_not_link table b (h b (by simp))
      have ihh := ih (fun x hx => h x (by simp [hx]))
      simp [assembleDoc, hb, ihh]

/-- C8: a document whose body holds exactly one link, with a target
matching no canonical path, assembles to exactly one `BrokenLink`
diagnostic, the link rendered as plain text among the other blocks; and
the build completes: the assembler yields one page for every document of
any document set. -/
theorem brokenLink_single_diagnostic (table : List String)
    (pre post : List ContentBlock) (t : String)
    (hpre : ∀ b ∈ pre, b.isLink = false)
    (hpost : ∀ b ∈ post, b.isLink = false)
    (ht : t ∉ table) :
    assembleDoc table (pre ++ .link t :: post)
      = (pre.map Rendered.node ++ .plainText t :: post.map Rendered.node,
          [.brokenLink t])
    ∧ ∀ docs : List Document, (assemblePages table docs).length = docs.length := by
  constructor
  · induction pre with
    | nil =>
        have hlink : renderBlock table (.link t) = (.plainText t, [.brokenLink t]) := by
          simp [renderBlock, ht]
        simp [assembleDoc, hlink, assembleDoc_linkFree table post hpost]
    | cons p ps ih =>
        have hp := renderBlock_not_link table p (hpre p (by simp))
        have ihh := ih (fun x hx => hpre x (by simp [hx]))
        simp [assembleDoc, hp, ihh]
  · intro docs
    simp [assemblePages]

/-- Witness for C8 on a concrete document and table. -/
theorem brokenLink_single_diagnostic_witness :
    (assembleDoc ["/x"] [.paragraph "a", .link "./nope", .heading 1 "b"]
        = ([.paragraph "a"].map Rendered.node
            ++ .plainText "./nope" :: [ContentBlock.heading 1 "b"].map Rendered.node,
            [.brokenLink "./nope"])
      ∧ ∀ docs : List Document,
          (assemblePages ["/x"] docs).length = docs.length) :=
  brokenLink_single_diagnostic ["/x"] [.paragraph "a"] [.heading 1 "b"] "./nope"
    (by decide) (by decide) (by decide)

/-- Modelled from the spec: one significant line of a document body, as
the content transformer sees it after lexing.  `plain` is a standard
markup line, `fence` a labeled code fence with its language and code,
`tabOpen` the opening of a tabbed-code directive carrying its label
list (as in `CodeTab labels ...` in the manual pages), `tabClose` its
closing tag.  Each item occupies one line; insignificant blank lines
are dropped by the lexer. -/
inductive BodyItem where
  | plain (line : String)
  | fence (lang : String) (code : String)
  | tabOpen (labels : List String)
  | tabClose
deriving DecidableEq

/-- The content transformer's state: at top level, or inside a tab
directive holding the directive's labels, the fences collected so far
and the directive's start line. -/
inductive TState where
  | top
  | inTab (labels : List String) (fences : List (String × String)) (startLine : Nat)
deriving DecidableEq

/-- Modelled from the spec: the error a malformed tab directive surfaces
as, identifying the offending line range. -/
inductive ContentError where
  | malformedContent (startLine endLine : Nat)
deriving DecidableEq

/-- A standard markup line as a content block: a heading when it starts
with a hash, a paragraph otherwise. -/
def lineBlock (l : String) : ContentBlock :=
  match l.toList with
  | '#' :: _ => .heading 1 l
  | _ => .paragraph l

/-- The entries of a code tab: the directive's labels paired in order
with the grouped fences' language and code. -/
def tabEntries (labels : List String) (fences : List (String × String)) :
    List (String × String × String) :=
  List.zipWith (fun lab f => (lab, f.1, f.2)) labels fences

/-- The raw text of a malformed directive, kept so the offending block
degrades to raw markup. -/
def rawOfDirective (labels : List String) (fences : List (String × String)) : String :=
  String.join (labels ++ fences.map (fun f => f.1 ++ "\n" ++ f.2))

/-- Modelled from the spec: the content transformer.  A single pass over
the body items; tab directives group their labeled code fences into one
`codeTab` block; a fence-count mismatch at the closing tag surfaces as a
`MalformedContent` error naming the directive's line range, the
offending block degrades to raw markup, and parsing continues with the
rest of the document; an unterminated or stray directive likewise
surfaces as `MalformedContent` and parsing continues. -/
def transformGo (pos : Nat) (st : TState) :
    List BodyItem → List ContentBlock × List ContentError
  | [] =>
      match st with
      | .top => ([], [])
      | .inTab labels fences start =>
          ([.rawMarkup (rawOfDirective labels fences)],
            [.malformedContent start pos])
  | .plain l :: rest =>
      match st with
      | .top =>
          let r := transformGo (pos + 1) .top rest
          (lineBlock l :: r.1, r.2)
      | .inTab labels fences start =>
          let r := transformGo (pos + 1) .top rest
          (.rawMarkup (rawOfDirective labels fences) :: lineBlock l :: r.1,
            .malformedContent start pos :: r.2)
  | .fence lang code :: rest =>
      match st with
      | .top =>
          let r := transformGo (pos + 1) .top rest
          (.rawMarkup code :: r.1, r.2)
      | .inTab labels fences start =>
          transformGo (pos + 1) (.inTab labels (fences ++ [(lang, code)]) start) rest
  | .tabOpen labels :: rest =>
      match st with
      | .top => transformGo (pos + 1) (.inTab labels [] pos) rest
      | .inTab labels0 fences0 start =>
          let r := transformGo (pos + 1) (.inTab labels [] pos) rest
          (.rawMarkup (rawOfDirective labels0 fences0) :: r.1,
            .malformedContent start pos :: r.2)
  | .tabClose :: rest =>
      match st with
      | .top =>
          let r := transformGo (pos + 1) .top rest
          (r.1, .malformedContent pos pos :: r.2)
      | .inTab labels fences start =>
          let r := transformGo (pos + 1) .top rest
          if fences.length = labels.length then
            (.codeTab (tabEntries labels fences) :: r.1, r.2)
          else
            (.rawMarkup (rawOfDirective labels fences) :: r.1,
              .malformedContent start pos :: r.2)

/-- The content transformer over a whole body. -/
def transform (items : List BodyItem) : List ContentBlock × List ContentError :=
  transformGo 0 .top items

/-- Balanced tab directives: every directive opens at top level, closes
with a closing tag, holds only code fences, and groups exactly as many
fences as it has labels.  The state is `none` at top level and
`some (labelCount, fenceCount)` inside a directive. -/
def balancedGo (st : Option (Nat × Nat)) : List BodyItem → Bool
  | [] => st = none
  | .plain _ :: rest =>
      match st with
      | none => balancedGo none rest
      | some _ => false
  | .fence _ _ :: rest =>
      match st with
      | none => balancedGo none rest
      | some nlf => balancedGo (some (nlf.1, nlf.2 + 1)) rest
  | .tabOpen labels :: rest =>
      match st with
      | none => balancedGo (some (labels.length, 0)) rest
      | some _ => false
  | .tabClose :: rest =>
      match st with
      | none => false
      | some nlf => nlf.1 = nlf.2 && balancedGo none rest

/-- Balanced tab directives over a whole body. -/
def balancedTabs (items : List BodyItem) : Bool :=
  balancedGo none items

/-- The label lists of the `codeTab` blocks of an output, in order. -/
def codeTabLabels : List ContentBlock → List (List String)
  | [] => []
  | .codeTab entries :: bs => entries.map (fun e => e.1) :: codeTabLabels bs
  | _ :: bs => codeTabLabels bs

/-- The label lists of the tab directives of a body, in order. -/
def directiveLabels : List BodyItem → List (List String)
  | [] => []
  | .tabOpen labels :: items => labels :: directiveLabels items
  | _ :: items => directiveLabels items

theorem tabEntries_labels (labels : List String) :
    ∀ fences : List (String × String), fences.length = labels.length →
      (tabEntries labels fences).map (fun e => e.1) = labels := by
  induction labels with
  | nil => intro fences h; simp [tabEntries]
  | cons lab labs ih =>
      intro fences h
      cases fences with
      | nil => simp at h
      | cons f fs =>
          simp [tabEntries] at h ⊢
          exact ih fs h

theorem codeTabLabels_cons_lineBlock (l : String) (bs : List ContentBlock) :
    codeTabLabels (lineBlock l :: bs) = codeTabLabels bs := by
  unfold lineBlock
  split <;> simp [codeTabLabels]

theorem transformGo_balanced (items : List BodyItem) :
    ∀ pos : Nat,
      (balancedGo none items = true →
        codeTabLabels (transformGo pos .top items).1 = directiveLabels items
        ∧ (transformGo pos .top items).2 = [])
      ∧ (∀ (labels : List String) (fences : List (String × String)) (start : Nat),
          balancedGo (some (labels.length, fences.length)) items = true →
          codeTabLabels (transformGo pos (.inTab labels fences start) items).1
              = labels :: directiveLabels items
          ∧ (transformGo pos (.inTab labels fences start) items).2 = []) := by
  induction items with
  | nil =>
      intro pos
      constructor
      · intro h
        simp [transformGo, codeTabLabels, directiveLabels]
      · intro labels fences start h
        simp [balancedGo] at h
  | cons it rest ih =>
      intro pos
      cases it with
      | plain l =>
          constructor
          · intro h
            simp only [balancedGo] at h
            obtain ⟨h1, h2⟩ := (ih (pos + 1)).1 h
            simp [transformGo, codeTabLabels_cons_lineBlock, directiveLabels, h1, h2]
          · intro labels fences start h
            simp [balancedGo] at h
      | fence lang code =>
          constructor
          · intro h
            simp only [balancedGo] at h
            obtain ⟨h1, h2⟩ := (ih (pos + 1)).1 h
            simp [transformGo, codeTabLabels, directiveLabels, h1, h2]
          · intro labels fences start h
            simp only [balancedGo] at h
            have hlen : (fences ++ [(lang, code)]).length = fences.length + 1 := by
              simp
            obtain ⟨h1, h2⟩ := (ih (pos + 1)).2 labels (fences ++ [(lang, code)]) start
              (by rw [hlen]; exact h)
            simp [transformGo, directiveLabels, h1, h2]
      | tabOpen labels' =>
          constructor
          · intro h
            simp only [balancedGo] at h
            obtain ⟨h1, h2⟩ := (ih (pos + 1)).2 labels' [] pos (by simpa using h)
            simp [transformGo, directiveLabels, h1, h2]
          · intro labels fences start h
            simp [balancedGo] at h
      | tabClose =>
          constructor
          · intro h
            simp [balancedGo] at h
          · intro labels fences start h
            simp only [balancedGo] at h
            have hand := Bool.and_eq_true_iff.mp h
            have hlen : labels.length = fences.length := by
              have := hand.1
              simpa using this
            obtain ⟨h1, h2⟩ := (ih (pos + 1)).1 hand.2
            simp [transformGo, hlen.symm, codeTabLabels, directiveLabels, h1, h2,
              tabEntries_labels labels fences hlen.symm]

/-- C5: for every document body whose tab directives are balanced (each
directive properly opened and closed, grouping exactly as many labeled
code fences as labels), the content transformer emits one `codeTab`
block per directive occurrence -- the label lists of the `codeTab`
blocks are exactly the directives' label lists, in the order written --
and no content error. -/
theorem codeTab_count_and_label_order (items : List BodyItem)
    (h : balancedTabs items = true) :
    codeTabLabels (transform items).1 = directiveLabels items
    ∧ (codeTabLabels (transform items).1).length = (directiveLabels items).length
    ∧ (transform items).2 = [] := by
  obtain ⟨h1, h2⟩ := (transformGo_balanced items 0).1 h
  unfold transform
  exact ⟨h1, by rw [h1], h2⟩

/-- Witness for C5: the spec's scenario, a directive with two fences
labeled ReScript and JS Output, yields exactly one `codeTab` block with
those labels in that order. -/
theorem codeTab_count_and_label_order_witness :
    balancedTabs [.tabOpen ["ReScript", "JS Output"],
        .fence "res" "let myColor = #Red", .fence "js" "var myColor = \"Red\";",
        .tabClose] = true
    ∧ (codeTabLabels (transform [.tabOpen ["ReScript", "JS Output"],
          .fence "res" "let myColor = #Red", .fence "js" "var myColor = \"Red\";",
          .tabClose]).1
        = directiveLabels [.tabOpen ["ReScript", "JS Output"],
            .fence "res" "let myColor = #Red", .fence "js" "var myColor = \"Red\";",
            .tabClose]
      ∧ (codeTabLabels (transform [.tabOpen ["ReScript", "JS Output"],
            .fence "res" "let myColor = #Red", .fence "js" "var myColor = \"Red\";",
            .tabClose]).1).length
          = (directiveLabels [.tabOpen ["ReScript", "JS Output"],
              .fence "res" "let myColor = #Red", .fence "js" "var myColor = \"Red\";",
              .tabClose]).length
      ∧ (transform [.tabOpen ["ReScript", "JS Output"],
          .fence "res" "let myColor = #Red", .fence "js" "var myColor = \"Red\";",
          .tabClose]).2 = []) :=
  ⟨by decide,
    codeTab_count_and_label_order [.tabOpen ["ReScript", "JS Output"],
      .fence "res" "let myColor = #Red", .fence "js" "var myColor = \"Red\";",
      .tabClose] (by decide)⟩

/-- The body items of a list of fences. -/
def fenceItems (fences : List (String × String)) : List BodyItem :=
  fences.map (fun f => .fence f.1 f.2)

theorem transformGo_consume_fences (fences : List (String × String)) :
    ∀ (pos start : Nat) (labels : List String) (acc : List (String × String))
      (rest : List BodyItem),
    transformGo pos (.inTab labels acc start) (fenceItems fences ++ .tabClose :: rest)
      = transformGo (pos + fences.length) (.inTab labels (acc ++ fences) start)
          (.tabClose :: rest) := by
  induction fences with
  | nil => intros; simp [fenceItems]
  | cons f fs ih =>
      intro pos start labels acc rest
      have hstep :
          transformGo pos (.inTab labels acc start)
              (fenceItems (f :: fs) ++ .tabClose :: rest)
            = transformGo (pos + 1) (.inTab labels (acc ++ [(f.1, f.2)]) start)
                (fenceItems fs ++ .tabClose :: rest) := by
        simp [fenceItems, transformGo]
      rw [hstep, ih (pos + 1) start labels (acc ++ [(f.1, f.2)]) rest]
      have harith : pos + 1 + fs.length = pos + (f :: fs).length := by
        simp
        omega
      have hacc : (acc ++ [(f.1, f.2)]) ++ fs = acc ++ f :: fs := by
        simp
      rw [harith, hacc]

/-- C10: a tab directive whose fence count mismatches its label count
(opening at line `pos`, its fences on the following lines, the closing
tag at line `pos + 1 + fences.length`) surfaces as one
`MalformedContent` error naming exactly that line range, the offending
directive degrades to a raw-markup block, and the transformer continues
with the remainder of the document: the blocks and errors after the
offending directive are exactly those of transforming the remainder by
itself. -/
theorem malformedContent_error_and_continue
    (pos : Nat) (labels : List String) (fences : List (String × String))
    (rest : List BodyItem)
    (hmismatch : fences.length ≠ labels.length) :
    transformGo pos .top (.tabOpen labels :: (fenceItems fences ++ .tabClose :: rest))
      = (.rawMarkup (rawOfDirective labels fences)
            :: (transformGo (pos + 1 + fences.length + 1) .top rest).1,
          .malformedContent pos (pos + 1 + fences.length)
            :: (transformGo (pos + 1 + fences.length + 1) .top rest).2) := by
  have h1 : transformGo pos .top
      (.tabOpen labels :: (fenceItems fences ++ .tabClose :: rest))
      = transformGo (pos + 1) (.inTab labels [] pos)
          (fenceItems fences ++ .tabClose :: rest) := by
    simp [transformGo]
  rw [h1, transformGo_consume_fences fences (pos + 1) pos labels [] rest]
  simp only [List.nil_append, transformGo]
  rw [if_neg hmismatch]

/-- Witness for C10: one fence under a two-label directive surfaces as a
`MalformedContent` error over lines 0..2 and the plain line after the
directive is still transformed. -/
theorem malformedContent_error_and_continue_witness :
    ([("res", "let x = 1")].length ≠ ["ReScript", "JS Output"].length)
    ∧ transformGo 0 .top (.tabOpen ["ReScript", "JS Output"]
          :: (fenceItems [("res", "let x = 1")] ++ .tabClose :: [.plain "after"]))
        = (.rawMarkup (rawOfDirective ["ReScript", "JS Output"] [("res", "let x = 1")])
              :: (transformGo (0 + 1 + [("res", "let x = 1")].length + 1) .top
                    [.plain "after"]).1,
            .malformedContent 0 (0 + 1 + [("res", "let x = 1")].length)
              :: (transformGo (0 + 1 + [("res", "let x = 1")].length + 1) .top
                    [.plain "after"]).2) :=
  ⟨by decide,
    malformedContent_error_and_continue 0 ["ReScript", "JS Output"]
      [("res", "let x = 1")] [.plain "after"] (by decide)⟩
